import Mathlib

/-!
Verification of the earthquake-dashboard core pipeline (`erdbeben_code.py`):
record normalization (`fetch_earthquake_data`), the time-window filter
(`start_dt` / `end_dt` / `mask`), the daily aggregator (`daily_stats`), and the
date-range widget bounds (`st.date_input` with `min_value` / `max_value`).

Instants are epoch milliseconds (`Int`).  `pandas` tz-aware timestamps are
modelled as an instant paired with the UTC offset in force at that instant;
comparisons between tz-aware timestamps compare the underlying instants, and
`.dt.date` projects through the wall clock.  Magnitudes are modelled as
`Option ℚ` (`None`/`NaN` is `none`); pandas `count` counts non-null values and
`mean` ignores nulls, yielding `NaN` (here `none`) on an all-null group.
-/

/-- Epoch milliseconds of 2025-01-01T00:00:00Z. -/
def epoch2025Ms : Int := 1735689600000

/-- Instant at which America/Los_Angeles switches to PDT in 2025
(2025-03-09T10:00:00Z, i.e. 02:00 PST → 03:00 PDT). -/
def dstStartMs : Int := 1741514400000

/-- Instant at which America/Los_Angeles switches back to PST in 2025
(2025-11-02T09:00:00Z, i.e. 02:00 PDT → 01:00 PST). -/
def dstEndMs : Int := 1762074000000

def msPerDay : Int := 86400000

/-- UTC offset of Pacific Daylight Time, in milliseconds (UTC-7). -/
def pdtOffsetMs : Int := -25200000

/-- UTC offset of Pacific Standard Time, in milliseconds (UTC-8). -/
def pstOffsetMs : Int := -28800000

/-- The America/Los_Angeles UTC offset (ms) in force at a given UTC instant,
per the tz database rules for 2025 — the app's configured valid year.
This is `pytz.timezone('America/Los_Angeles')`'s offset restricted to the
window the application operates on. -/
def laOffsetMs (t : Int) : Int :=
  if dstStartMs ≤ t ∧ t < dstEndMs then pdtOffsetMs else pstOffsetMs

/-- A pandas tz-aware timestamp: the UTC instant plus the UTC offset applied
when rendering it in the target timezone. -/
structure LocalTimestamp where
  instant : Int
  offsetMs : Int
deriving DecidableEq, Repr

/-- `utc_time.tz_localize('UTC').tz_convert(pytz.timezone('America/Los_Angeles'))`:
the instant is unchanged; the offset is the one in force at that instant. -/
def localOfUtc (t : Int) : LocalTimestamp :=
  { instant := t, offsetMs := laOffsetMs t }

/-- The wall-clock reading of a tz-aware timestamp, as milliseconds on the
local clock since 1970-01-01T00:00:00 local. -/
def wallMs (lt : LocalTimestamp) : Int :=
  lt.instant + lt.offsetMs

/-- The local calendar date of a tz-aware timestamp (`.dt.date` in pandas),
as a day number since 1970-01-01. -/
def localDateOf (lt : LocalTimestamp) : Int :=
  (wallMs lt).fdiv msPerDay

/-- One normalized earthquake record (one row appended per feature in
`fetch_earthquake_data`). -/
structure Event where
  place : String
  magnitude : Option ℚ
  time_utc : Int
  time_local : LocalTimestamp
  latitude : ℚ
  longitude : ℚ
deriving DecidableEq, Repr

/-- One raw feed feature.  Each field is `none` when the corresponding JSON
key is absent (a Python `KeyError` on access); `mag?` is doubly optional
because the `mag` key may be present with a `null` value. -/
structure Feature where
  place? : Option String
  mag? : Option (Option ℚ)
  time? : Option Int
  coordinates? : Option (List ℚ)
deriving DecidableEq, Repr

/-- The per-feature body of the loop in `fetch_earthquake_data`: extract
`properties['place']`, `properties['mag']`, `properties['time']`,
`geometry.coordinates[1]` (latitude) and `[0]` (longitude), convert the epoch
milliseconds to UTC and to the fixed target timezone.  A missing key or a
coordinate array shorter than 2 raises (`SchemaError`). -/
def normalizeFeature (f : Feature) : Except String Event :=
  match f.place?, f.mag?, f.time?, f.coordinates? with
  | some pl, some mag, some t, some coords =>
    match coords with
    | lon :: lat :: _ =>
      Except.ok { place := pl, magnitude := mag, time_utc := t,
                  time_local := localOfUtc t, latitude := lat, longitude := lon }
    | _ => Except.error "SchemaError"
  | _, _, _, _ => Except.error "SchemaError"

/-- Sequential left-to-right mapping that aborts on the first error — the
`for feature in features` loop with an uncaught exception: the partial
`earthquakes` list is discarded wholesale. -/
def mapExcept (f : α → Except String β) : List α → Except String (List β)
  | [] => Except.ok []
  | a :: as =>
    match f a with
    | Except.error e => Except.error e
    | Except.ok b =>
      match mapExcept f as with
      | Except.error e => Except.error e
      | Except.ok bs => Except.ok (b :: bs)

/-- `fetch_earthquake_data`, from the parsed feature list on: one record per
feature, in feed order, or a propagated `SchemaError`. -/
def fetch_earthquake_data (features : List Feature) : Except String (List Event) :=
  mapExcept normalizeFeature features

/-- Whether a feature carries every required field (`place`, `mag`, `time`,
and a coordinate array with at least two entries). -/
def hasRequiredFields (f : Feature) : Bool :=
  f.place?.isSome && f.mag?.isSome && f.time?.isSome &&
    (match f.coordinates? with
     | some coords => decide (2 ≤ coords.length)
     | none => false)

/-- `pd.Timestamp(d, tz="America/Los_Angeles")` for a calendar date `d` given
as a day index relative to 2025-01-01: the UTC instant of local midnight on
that date.  In 2025 local midnight is PDT exactly for 2025-03-10 (day 68)
through 2025-11-02 (day 305). -/
def localMidnightUtcMs (d : Int) : Int :=
  epoch2025Ms + d * msPerDay +
    (if 68 ≤ d ∧ d ≤ 305 then -pdtOffsetMs else -pstOffsetMs)

/-- The UTC instant whose America/Los_Angeles wall clock reads 23:59:59 on
day `d` of 2025 — the claim-side upper bound of the filter window.  In 2025,
23:59:59 local is PDT exactly for 2025-03-09 (day 67) through 2025-11-01
(day 304). -/
def endOfDayInstant (d : Int) : Int :=
  epoch2025Ms + d * msPerDay + 86399000 +
    (if 67 ≤ d ∧ d ≤ 304 then -pdtOffsetMs else -pstOffsetMs)

/-- The claim-side window: `time_local` lies in the inclusive range
[start_date 00:00:00 local, end_date 23:59:59 local]. -/
def inClaimWindow (s e : Int) (ev : Event) : Prop :=
  localMidnightUtcMs s ≤ ev.time_local.instant ∧
    ev.time_local.instant ≤ endOfDayInstant e

/-- The filter of section 4: `start_dt = pd.Timestamp(start_date, tz=LA)`,
`end_dt = pd.Timestamp(end_date, tz=LA) + pd.Timedelta(days=1) -
pd.Timedelta(seconds=1)` (a fixed 24-hour duration on the instant line), and
`mask = (time_local >= start_dt) & (time_local <= end_dt)`; tz-aware
comparisons compare instants. -/
def timeWindowFilter (evs : List Event) (s e : Int) : List Event :=
  let startDt := localMidnightUtcMs s
  let endDt := localMidnightUtcMs e + msPerDay - 1000
  evs.filter (fun ev =>
    decide (startDt ≤ ev.time_local.instant) &&
      decide (ev.time_local.instant ≤ endDt))

/-- The grouping key of `daily_stats`: `df_filtered["time_local"].dt.date`. -/
def eventLocalDate (ev : Event) : Int :=
  localDateOf ev.time_local

/-- Insert a key into a strictly-sorted list of keys, keeping it
strictly sorted (no duplicates). -/
def insertKey (d : Int) : List Int → List Int
  | [] => [d]
  | x :: xs =>
    if d < x then d :: x :: xs
    else if d = x then x :: xs
    else x :: insertKey d xs

/-- The ascending list of distinct group keys of a groupby — pandas sorts
group keys ascending by default. -/
def groupKeys (evs : List Event) : List Int :=
  (evs.map eventLocalDate).foldr insertKey []

/-- The non-null magnitudes of the group of events on local date `d`, in row
order — what pandas `count` counts and `mean` averages. -/
def validMags (evs : List Event) (d : Int) : List ℚ :=
  ((evs.filter (fun ev => decide (eventLocalDate ev = d))).filterMap
    (fun ev => ev.magnitude))

/-- One row of the `daily_stats` frame. -/
structure DailyAggregate where
  date : Int
  count : Nat
  avg_magnitude : Option ℚ
deriving DecidableEq, Repr

/-- The arithmetic mean of a list of rationals, undefined (`none`) on the
empty list — how the spec words the per-group mean. -/
def specMean (l : List ℚ) : Option ℚ :=
  if l = [] then none else some (l.sum / (l.length : ℚ))

/-- `daily_stats`: group the filtered rows by local calendar date; per group,
`count=("magnitude","count")` is the number of non-null magnitudes and
`avg_magnitude=("magnitude","mean")` their mean, `NaN` (`none`) when the
group has no non-null magnitude.  Rows are keyed by ascending date. -/
def daily_stats (evs : List Event) : List DailyAggregate :=
  (groupKeys evs).map (fun d =>
    { date := d,
      count := (validMags evs d).length,
      avg_magnitude :=
        if (validMags evs d).length = 0 then none
        else some ((validMags evs d).sum / ((validMags evs d).length : ℚ)) })

/-- `st.date_input` with `min_value` / `max_value`: a requested value outside
the configured bounds is rejected by the widget (`RangeError` in the spec's
nomenclature) and never reaches the pipeline. -/
def date_input (value lo hi : Int) : Except String Int :=
  if lo ≤ value ∧ value ≤ hi then Except.ok value else Except.error "RangeError"

/-- Sections 3–5 of the script as a function: the widget bounds are
2025-01-01 (day 0) through `min(today, 2025-12-31)` (day ≤ 364, `today` given
as a day index relative to 2025-01-01); an in-range request filters the
snapshot and aggregates; an out-of-range request fails before filtering. -/
def runApp (today : Int) (evs : List Event) (reqStart reqEnd : Int) :
    Except String (List Event × List DailyAggregate) :=
  match date_input reqStart 0 (min today 364), date_input reqEnd 0 (min today 364) with
  | Except.ok s, Except.ok e =>
    let filtered := timeWindowFilter evs s e
    Except.ok (filtered, daily_stats filtered)
  | Except.error msg, _ => Except.error msg
  | _, Except.error msg => Except.error msg

/-! Concrete fixtures used to instantiate the theorems below.  Instants:
1750000000000 is 2025-06-15T15:06:40Z (PDT); 1741514400000 is the exact 2025
spring-forward instant (02:00 PST → 03:00 PDT); 1741514399000 is one second
before it; 1741593599000 is 2025-03-10T00:59:59 PDT; 1741590000000 is
2025-03-10T00:00:00 PDT. -/

def fW1 : Feature :=
  { place? := some "A", mag? := some (some 2), time? := some 1750000000000,
    coordinates? := some [10, 20] }

def fW2 : Feature :=
  { place? := some "B", mag? := some none, time? := some 1741514400000,
    coordinates? := some [30, 40, 5] }

def fBad : Feature :=
  { place? := none, mag? := some (some 1), time? := some 0,
    coordinates? := some [1, 2] }

def fDstB : Feature :=
  { place? := some "dstB", mag? := some (some 1), time? := some 1741514399000,
    coordinates? := some [0, 0] }

def evW1 : Event :=
  { place := "A", magnitude := some 2, time_utc := 1750000000000,
    time_local := { instant := 1750000000000, offsetMs := -25200000 },
    latitude := 20, longitude := 10 }

def evW2 : Event :=
  { place := "B", magnitude := none, time_utc := 1741514400000,
    time_local := { instant := 1741514400000, offsetMs := -25200000 },
    latitude := 40, longitude := 30 }

def evDstB : Event :=
  { place := "dstB", magnitude := some 1, time_utc := 1741514399000,
    time_local := { instant := 1741514399000, offsetMs := -28800000 },
    latitude := 0, longitude := 0 }

def evM2 : Event :=
  { place := "m2", magnitude := some 2, time_utc := 1750000000000,
    time_local := localOfUtc 1750000000000, latitude := 0, longitude := 0 }

def evM4 : Event :=
  { place := "m4", magnitude := some 4, time_utc := 1750003600000,
    time_local := localOfUtc 1750003600000, latitude := 0, longitude := 0 }

def evNullMag : Event :=
  { place := "nullmag", magnitude := none, time_utc := 1750000000000,
    time_local := localOfUtc 1750000000000, latitude := 0, longitude := 0 }

def evDstEdge : Event :=
  { place := "edge", magnitude := some 1, time_utc := 1741593599000,
    time_local := localOfUtc 1741593599000, latitude := 0, longitude := 0 }

def evGap : Event :=
  { place := "gap", magnitude := some 1, time_utc := 1741590000000,
    time_local := localOfUtc 1741590000000, latitude := 0, longitude := 0 }

/-! Helper lemmas. -/

theorem mapExcept_ok_spec (f : α → Except String β) :
    ∀ (l : List α) (bs : List β), mapExcept f l = Except.ok bs →
      bs.length = l.length ∧
      ∀ i (h1 : i < l.length) (h2 : i < bs.length),
        f (l.get ⟨i, h1⟩) = Except.ok (bs.get ⟨i, h2⟩) := by
  intro l
  induction l with
  | nil =>
    intro bs h
    simp only [mapExcept, Except.ok.injEq] at h
    subst h
    exact ⟨rfl, fun i h1 _ => absurd h1 (Nat.not_lt_zero i)⟩
  | cons a as ih =>
    intro bs h
    simp only [mapExcept] at h
    cases hfa : f a with
    | error e => rw [hfa] at h; exact absurd h (by simp)
    | ok b =>
      rw [hfa] at h
      cases hrec : mapExcept f as with
      | error e => rw [hrec] at h; exact absurd h (by simp)
      | ok bs' =>
        rw [hrec] at h
        injection h with h
        subst h
        obtain ⟨ihlen, ihget⟩ := ih bs' hrec
        refine ⟨by simp [ihlen], ?_⟩
        intro i h1 h2
        cases i with
        | zero => simpa using hfa
        | succ j =>
          have hj1 : j < as.length := by simpa using h1
          have hj2 : j < bs'.length := by simpa using h2
          simpa using ihget j hj1 hj2

theorem mapExcept_ok_mem (f : α → Except String β) :
    ∀ (l : List α) (bs : List β), mapExcept f l = Except.ok bs →
      ∀ b ∈ bs, ∃ a ∈ l, f a = Except.ok b := by
  intro l
  induction l with
  | nil =>
    intro bs h
    simp only [mapExcept, Except.ok.injEq] at h
    subst h
    intro b hb
    exact absurd hb (List.not_mem_nil b)
  | cons a as ih =>
    intro bs h
    simp only [mapExcept] at h
    cases hfa : f a with
    | error e => rw [hfa] at h; exact absurd h (by simp)
    | ok b =>
      rw [hfa] at h
      cases hrec : mapExcept f as with
      | error e => rw [hrec] at h; exact absurd h (by simp)
      | ok bs' =>
        rw [hrec] at h
        injection h with h
        subst h
        intro b' hb'
        rcases List.mem_cons.mp hb' with rfl | hb''
        · exact ⟨a, List.mem_cons_self a as, hfa⟩
        · obtain ⟨x, hx, hfx⟩ := ih bs' hrec b' hb''
          exact ⟨x, List.mem_cons_of_mem a hx, hfx⟩

theorem mapExcept_ok_of_all_ok (f : α → Except String β) :
    ∀ l : List α, (∀ a ∈ l, ∃ b, f a = Except.ok b) →
      ∃ bs, mapExcept f l = Except.ok bs := by
  intro l
  induction l with
  | nil => exact fun _ => ⟨[], rfl⟩
  | cons a as ih =>
    intro h
    obtain ⟨b, hb⟩ := h a (List.mem_cons_self a as)
    obtain ⟨bs, hbs⟩ := ih (fun x hx => h x (List.mem_cons_of_mem a hx))
    exact ⟨b :: bs, by simp [mapExcept, hb, hbs]⟩

theorem mapExcept_error_of_bad (f : α → Except String β) :
    ∀ l : List α, (∃ a ∈ l, ∀ b, f a ≠ Except.ok b) →
      ∃ msg, mapExcept f l = Except.error msg := by
  intro l
  induction l with
  | nil => rintro ⟨a, ha, -⟩; exact absurd ha (List.not_mem_nil a)
  | cons a as ih =>
    rintro ⟨x, hx, hbad⟩
    cases hfa : f a with
    | error e => exact ⟨e, by simp [mapExcept, hfa]⟩
    | ok b =>
      rcases List.mem_cons.mp hx with rfl | hx'
      · exact absurd hfa (hbad b)
      · obtain ⟨msg, hmsg⟩ := ih ⟨x, hx', hbad⟩
        exact ⟨msg, by simp [mapExcept, hfa, hmsg]⟩

theorem normalizeFeature_ok_iff (f : Feature) :
    (∃ ev, normalizeFeature f = Except.ok ev) ↔ hasRequiredFields f = true := by
  obtain ⟨p, m, t, c⟩ := f
  cases p <;> cases m <;> cases t <;> cases c <;>
    simp only [normalizeFeature, hasRequiredFields, Option.isSome_none, Option.isSome_some,
      Bool.false_and, Bool.and_false, Bool.true_and, Bool.and_true] <;>
    try simp
  case some.some.some.some pl mag tt coords =>
    rcases coords with - | ⟨lon, - | ⟨lat, rest⟩⟩ <;> simp

theorem normalizeFeature_ok_time_local {f : Feature} {ev : Event}
    (h : normalizeFeature f = Except.ok ev) :
    ev.time_local = localOfUtc ev.time_utc := by
  unfold normalizeFeature at h
  split at h
  · split at h
    · injection h with h
      subst h
      rfl
    · exact absurd h (by simp)
  · exact absurd h (by simp)

/-! Claim theorems. -/

/-- C5: for every valid feed document, normalization produces exactly one
EarthquakeEvent per input feature, and the output sequence preserves the
feed's feature order (record `i` is the normalization of feature `i`). -/
theorem fetch_preserves_length_and_order :
    ∀ (features : List Feature) (evs : List Event),
      fetch_earthquake_data features = Except.ok evs →
      evs.length = features.length ∧
      ∀ i (h1 : i < features.length) (h2 : i < evs.length),
        normalizeFeature (features.get ⟨i, h1⟩) = Except.ok (evs.get ⟨i, h2⟩) :=
  fun features evs h => mapExcept_ok_spec normalizeFeature features evs h

/-- Witness for C5: a concrete two-feature feed normalizes to two records. -/
theorem fetch_preserves_length_and_order_witness :
    ([evW1, evW2] : List Event).length = ([fW1, fW2] : List Feature).length :=
  (fetch_preserves_length_and_order [fW1, fW2] [evW1, evW2] rfl).1

/-- C6: normalization fails with a propagated SchemaError as soon as any
single feature lacks a required field (no partial record set — the result is
an error, not a list), and succeeds when every feature has all required
fields. -/
theorem fetch_schema_error_characterization :
    (∀ features : List Feature, (∃ f ∈ features, hasRequiredFields f = false) →
      ∃ msg, fetch_earthquake_data features = Except.error msg) ∧
    (∀ features : List Feature, (∀ f ∈ features, hasRequiredFields f = true) →
      ∃ evs, fetch_earthquake_data features = Except.ok evs) := by
  constructor
  · rintro features ⟨f, hf, hbad⟩
    apply mapExcept_error_of_bad
    refine ⟨f, hf, fun b hb => ?_⟩
    have := (normalizeFeature_ok_iff f).mp ⟨b, hb⟩
    rw [this] at hbad
    exact Bool.noConfusion hbad
  · intro features hall
    exact mapExcept_ok_of_all_ok _ features
      (fun f hf => (normalizeFeature_ok_iff f).mpr (hall f hf))

/-- Witness for C6: a feed with a feature missing `place` errors; a feed of
fully-populated features succeeds. -/
theorem fetch_schema_error_characterization_witness :
    (∃ msg, fetch_earthquake_data [fW1, fBad] = Except.error msg) ∧
    (∃ evs, fetch_earthquake_data [fW1, fW2] = Except.ok evs) :=
  ⟨fetch_schema_error_characterization.1 [fW1, fBad]
      ⟨fBad, by simp, by rfl⟩,
    fetch_schema_error_characterization.2 [fW1, fW2]
      (by intro f hf; rcases List.mem_cons.mp hf with rfl | hf'
          · rfl
          · rcases List.mem_cons.mp hf' with rfl | h
            · rfl
            · exact absurd h (List.not_mem_nil f))⟩

/-- C8: every normalized event's `time_local` is exactly `time_utc` converted
through the fixed target timezone's offset rules for that instant — a pure
deterministic function of `time_utc`. -/
theorem time_local_derived_from_time_utc :
    ∀ (features : List Feature) (evs : List Event),
      fetch_earthquake_data features = Except.ok evs →
      ∀ ev ∈ evs, ev.time_local = localOfUtc ev.time_utc := by
  intro features evs h ev hev
  obtain ⟨f, -, hf⟩ := mapExcept_ok_mem normalizeFeature features evs h ev hev
  exact normalizeFeature_ok_time_local hf

/-- Witness for C8, straddling the 2025 spring-forward boundary: the feature
one second before the transition gets the PST offset, the one at the
transition instant gets the PDT offset. -/
theorem time_local_derived_from_time_utc_witness :
    evW2.time_local = localOfUtc evW2.time_utc ∧
    evDstB.time_local = localOfUtc evDstB.time_utc :=
  ⟨time_local_derived_from_time_utc [fW2, fDstB] [evW2, evDstB] rfl evW2
      (List.mem_cons_self evW2 [evDstB]),
    time_local_derived_from_time_utc [fW2, fDstB] [evW2, evDstB] rfl evDstB
      (List.mem_cons_of_mem evW2 (List.mem_cons_self evDstB []))⟩

/-- C9: a feature whose coordinate array is `[lon, lat, ...]` normalizes to a
record with `longitude` equal to the first coordinate and `latitude` equal to
the second (the feed's longitude-first order swap is applied correctly). -/
theorem coordinate_order_swap :
    ∀ (pl : String) (mag : Option ℚ) (t : Int) (lon lat : ℚ) (rest : List ℚ),
      ∃ ev,
        normalizeFeature
            { place? := some pl, mag? := some mag, time? := some t,
              coordinates? := some (lon :: lat :: rest) } = Except.ok ev ∧
          ev.longitude = lon ∧ ev.latitude = lat :=
  fun pl mag t lon lat rest => ⟨_, rfl, rfl, rfl⟩

/-- C2: a requested date window outside the configured valid range (calendar
year 2025, capped at the current date) is rejected with `RangeError`; the
error result carries no filtered or aggregated data, so no filtering or
aggregation is performed. -/
theorem out_of_range_rejected :
    ∀ (today : Int) (evs : List Event) (reqStart reqEnd : Int),
      (reqStart < 0 ∨ min today 364 < reqStart ∨ reqEnd < 0 ∨ min today 364 < reqEnd) →
      runApp today evs reqStart reqEnd = Except.error "RangeError" := by
  intro today evs rs re h
  unfold runApp date_input
  by_cases hs : 0 ≤ rs ∧ rs ≤ min today 364
  · rw [if_pos hs]
    have he : ¬(0 ≤ re ∧ re ≤ min today 364) := by omega
    rw [if_neg he]
  · rw [if_neg hs]
    by_cases he : 0 ≤ re ∧ re ≤ min today 364
    · rw [if_pos he]
    · rw [if_neg he]

/-- Witness for C2: on 2025-12-31, requesting a start date beyond the year
bound fails with `RangeError`. -/
theorem out_of_range_rejected_witness :
    runApp 364 [] 400 0 = Except.error "RangeError" :=
  out_of_range_rejected 364 [] 400 0 (by omega)

/-- C7: an empty filtered event sequence aggregates to an empty DailyAggregate
sequence, and any in-range request — in particular one whose filtered result
is empty — yields a valid `ok` result, never a thrown condition. -/
theorem empty_input_empty_output :
    daily_stats ([] : List Event) = [] ∧
    ∀ (today : Int) (evs : List Event) (reqStart reqEnd : Int),
      0 ≤ reqStart → reqStart ≤ min today 364 →
      0 ≤ reqEnd → reqEnd ≤ min today 364 →
      runApp today evs reqStart reqEnd =
        Except.ok (timeWindowFilter evs reqStart reqEnd,
          daily_stats (timeWindowFilter evs reqStart reqEnd)) := by
  constructor
  · rfl
  · intro today evs rs re h1 h2 h3 h4
    unfold runApp date_input
    rw [if_pos ⟨h1, h2⟩, if_pos ⟨h3, h4⟩]

/-- Witness for C7: an empty snapshot filtered over an in-range window gives
an `ok` pair of empty sequences. -/
theorem empty_input_empty_output_witness :
    runApp 364 [] 0 0 = Except.ok ([], []) :=
  empty_input_empty_output.2 364 [] 0 0 (by omega) (by omega) (by omega) (by omega)

theorem mem_insertKey {x d : Int} : ∀ {l : List Int}, x ∈ insertKey d l ↔ x = d ∨ x ∈ l := by
  intro l
  induction l with
  | nil => simp [insertKey]
  | cons a as ih =>
    simp only [insertKey]
    split_ifs with h1 h2
    · simp [List.mem_cons]
    · subst h2
      simp only [List.mem_cons]
      tauto
    · simp only [List.mem_cons, ih]
      tauto

theorem sorted_insertKey {d : Int} : ∀ {l : List Int}, l.Sorted (· < ·) →
    (insertKey d l).Sorted (· < ·) := by
  intro l
  induction l with
  | nil => intro _; simp [insertKey]
  | cons a as ih =>
    intro h
    rw [List.sorted_cons] at h
    obtain ⟨ha, has⟩ := h
    simp only [insertKey]
    split_ifs with h1 h2
    · refine List.sorted_cons.mpr ⟨?_, List.sorted_cons.mpr ⟨ha, has⟩⟩
      intro b hb
      rcases List.mem_cons.mp hb with rfl | hb'
      · exact h1
      · exact lt_trans h1 (ha b hb')
    · exact List.sorted_cons.mpr ⟨ha, has⟩
    · have h3 : a < d := by omega
      refine List.sorted_cons.mpr ⟨?_, ih has⟩
      intro b hb
      rcases mem_insertKey.mp hb with rfl | hb'
      · exact h3
      · exact ha b hb'

theorem groupKeys_sorted (evs : List Event) : (groupKeys evs).Sorted (· < ·) := by
  unfold groupKeys
  generalize evs.map eventLocalDate = l
  induction l with
  | nil => simp
  | cons a as ih => exact sorted_insertKey ih

theorem groupKeys_nodup (evs : List Event) : (groupKeys evs).Nodup :=
  (groupKeys_sorted evs).nodup

theorem mem_groupKeys {d : Int} {evs : List Event} :
    d ∈ groupKeys evs ↔ d ∈ evs.map eventLocalDate := by
  unfold groupKeys
  generalize evs.map eventLocalDate = l
  induction l with
  | nil => simp
  | cons a as ih =>
    simp only [List.foldr_cons, mem_insertKey, List.mem_cons, ih]

theorem sum_map_indicator_of_not_mem {a : Int} {c : Nat} : ∀ {K : List Int}, a ∉ K →
    (K.map (fun d => if a = d then c else 0)).sum = 0 := by
  intro K
  induction K with
  | nil => intro _; rfl
  | cons x xs ih =>
    intro ha
    have hax : a ≠ x := fun h => ha (h ▸ List.mem_cons_self x xs)
    have ha' : a ∉ xs := fun h => ha (List.mem_cons_of_mem x h)
    simp [if_neg hax, ih ha']

theorem sum_map_indicator_of_mem {a : Int} {c : Nat} : ∀ {K : List Int}, K.Nodup → a ∈ K →
    (K.map (fun d => if a = d then c else 0)).sum = c := by
  intro K
  induction K with
  | nil => intro _ ha; exact absurd ha (List.not_mem_nil a)
  | cons x xs ih =>
    intro hnd ha
    rw [List.nodup_cons] at hnd
    rcases List.mem_cons.mp ha with rfl | ha'
    · simp [sum_map_indicator_of_not_mem hnd.1]
    · have hax : a ≠ x := fun h => hnd.1 (h ▸ ha')
      simp [if_neg hax, ih hnd.2 ha']

theorem validMags_cons (ev : Event) (evs : List Event) (d : Int) :
    (validMags (ev :: evs) d).length =
      (if eventLocalDate ev = d then (if ev.magnitude.isSome then 1 else 0) else 0) +
        (validMags evs d).length := by
  by_cases hd : eventLocalDate ev = d <;> cases hm : ev.magnitude <;>
    (simp [validMags, List.filter_cons, List.filterMap_cons, hd, hm]; try omega)

theorem sum_validMags (evs : List Event) :
    ∀ K : List Int, K.Nodup → (∀ ev ∈ evs, eventLocalDate ev ∈ K) →
      (K.map (fun d => (validMags evs d).length)).sum =
        (evs.filterMap Event.magnitude).length := by
  induction evs with
  | nil =>
    intro K _ _
    simp only [List.filterMap_nil, List.length_nil]
    apply List.sum_eq_zero
    intro x hx
    obtain ⟨d, -, rfl⟩ := List.mem_map.mp hx
    rfl
  | cons ev evs ih =>
    intro K hnd hmem
    have hmem' : ∀ x ∈ evs, eventLocalDate x ∈ K :=
      fun x hx => hmem x (List.mem_cons_of_mem ev hx)
    have he : eventLocalDate ev ∈ K := hmem ev (List.mem_cons_self ev evs)
    have hsplit :
        K.map (fun d => (validMags (ev :: evs) d).length) =
          K.map (fun d =>
            (if eventLocalDate ev = d then (if ev.magnitude.isSome then 1 else 0) else 0) +
              (validMags evs d).length) := by
      apply List.map_congr_left
      intro d _
      exact validMags_cons ev evs d
    rw [hsplit, List.sum_map_add, ih K hnd hmem']
    by_cases hm : ev.magnitude.isSome = true
    · have ho : (K.map (fun d =>
          if eventLocalDate ev = d then (if ev.magnitude.isSome then 1 else 0) else 0)) =
            (K.map (fun d => if eventLocalDate ev = d then 1 else 0)) := by
        apply List.map_congr_left
        intro d _
        rw [if_pos hm]
      rw [ho, sum_map_indicator_of_mem hnd he]
      obtain ⟨q, hq⟩ := Option.isSome_iff_exists.mp hm
      rw [List.filterMap_cons_some hq]
      simp only [List.length_cons]
      omega
    · have hm' : ev.magnitude = none := Option.not_isSome_iff_eq_none.mp hm
      have hz : (K.map (fun d =>
          if eventLocalDate ev = d then (if ev.magnitude.isSome then 1 else 0) else 0)).sum = 0 := by
        apply List.sum_eq_zero
        intro x hx
        obtain ⟨d, -, rfl⟩ := List.mem_map.mp hx
        simp [hm']
      rw [hz, List.filterMap_cons_none hm']
      omega

/-- C1 (amended): the sum of the `count` values over the DailyAggregate
output equals the number of filtered events with a non-missing magnitude —
pandas `count=("magnitude","count")` counts non-null values, so events whose
magnitude is missing are not counted. -/
theorem daily_counts_sum :
    ∀ evs : List Event,
      ((daily_stats evs).map (fun a => a.count)).sum =
        (evs.filterMap Event.magnitude).length := by
  intro evs
  have h1 : (daily_stats evs).map (fun a => a.count) =
      (groupKeys evs).map (fun d => (validMags evs d).length) := by
    simp only [daily_stats, List.map_map]
    rfl
  rw [h1]
  exact sum_validMags evs (groupKeys evs) (groupKeys_nodup evs)
    (fun ev hev => mem_groupKeys.mpr (List.mem_map_of_mem eventLocalDate hev))

/-- Counterexample to C1 as stated: one filtered event with a missing
magnitude yields a DailyAggregate row with `count = 0`, so the counts sum to
0 while the filtered input has one event. -/
theorem daily_counts_sum_counterexample :
    ¬ (((daily_stats (timeWindowFilter [evNullMag] 165 165)).map (fun a => a.count)).sum =
        (timeWindowFilter [evNullMag] 165 165).length) := by decide

/-- C4: each DailyAggregate's `avg_magnitude` is the arithmetic mean of the
non-missing magnitudes of its group, `none` (not zero) when the group has no
valid magnitude; a day with magnitudes [2.0, 4.0] averages to 3.0. -/
theorem daily_avg_is_mean :
    (∀ (evs : List Event) (a : DailyAggregate), a ∈ daily_stats evs →
      a.avg_magnitude = specMean (validMags evs a.date)) ∧
    daily_stats [evM2, evM4] =
      [{ date := 20254, count := 2, avg_magnitude := some 3 }] := by
  constructor
  · intro evs a ha
    simp only [daily_stats, List.mem_map] at ha
    obtain ⟨d, -, rfl⟩ := ha
    simp only [specMean]
    by_cases h : validMags evs d = []
    · simp [h]
    · have hlen : (validMags evs d).length ≠ 0 := by
        simpa [List.length_eq_zero] using h
      simp [h, hlen]
  · have hkeys : groupKeys [evM2, evM4] = [20254] := by decide
    have hmags : validMags [evM2, evM4] 20254 = [2, 4] := by decide
    simp only [daily_stats, hkeys, hmags, List.map_cons, List.map_nil, List.length_cons,
      List.length_nil, List.sum_cons, List.sum_nil]
    norm_num

/-- Witness for C4: the concrete aggregate row for the [2.0, 4.0] day is in
the output, and its mean agrees with the spec-side mean of its group. -/
theorem daily_avg_is_mean_witness :
    ({ date := 20254, count := 2, avg_magnitude := some 3 } : DailyAggregate) ∈
        daily_stats [evM2, evM4] ∧
    ({ date := 20254, count := 2, avg_magnitude := some 3 } : DailyAggregate).avg_magnitude =
      specMean (validMags [evM2, evM4] (20254 : Int)) := by
  have hmem : ({ date := 20254, count := 2, avg_magnitude := some 3 } : DailyAggregate) ∈
      daily_stats [evM2, evM4] := by
    rw [daily_avg_is_mean.2]
    exact List.mem_singleton.mpr rfl
  exact ⟨hmem, daily_avg_is_mean.1 [evM2, evM4] _ hmem⟩

/-- C3 (amended): the filter selects exactly the events whose `time_local`
instant lies in [start_date 00:00:00 local, local midnight of end_date plus
a fixed 24 h − 1 s]; on end dates without a DST transition (the offset at
midnight still holds 23:59:59 later) that upper bound coincides with
end_date 23:59:59 local, the bound the claim states. -/
theorem filter_window_characterization :
    (∀ (evs : List Event) (s e : Int) (ev : Event),
      ev ∈ timeWindowFilter evs s e ↔
        ev ∈ evs ∧ localMidnightUtcMs s ≤ ev.time_local.instant ∧
          ev.time_local.instant ≤ localMidnightUtcMs e + msPerDay - 1000) ∧
    (∀ e : Int,
      laOffsetMs (localMidnightUtcMs e) = laOffsetMs (localMidnightUtcMs e + msPerDay - 1000) →
      localMidnightUtcMs e + msPerDay - 1000 = endOfDayInstant e) := by
  constructor
  · intro evs s e ev
    simp [timeWindowFilter, List.mem_filter, and_assoc]
  · intro e h
    simp only [laOffsetMs, localMidnightUtcMs, endOfDayInstant, epoch2025Ms, dstStartMs,
      dstEndMs, msPerDay, pdtOffsetMs, pstOffsetMs] at h ⊢
    split_ifs at h ⊢ <;> omega

/-- Witness for C3: on 2025-04-11 (day 100, no DST transition) the code's
upper bound is exactly 23:59:59 local. -/
theorem filter_window_characterization_witness :
    laOffsetMs (localMidnightUtcMs 100) =
        laOffsetMs (localMidnightUtcMs 100 + msPerDay - 1000) ∧
    localMidnightUtcMs 100 + msPerDay - 1000 = endOfDayInstant 100 :=
  ⟨by decide, filter_window_characterization.2 100 (by decide)⟩

/-- Counterexample to C3 as stated: with start = end = 2025-03-09 (the
spring-forward day, 23 h long), the code's upper bound is local midnight plus
24 h − 1 s = 2025-03-10 00:59:59 PDT, so an event at that instant is selected
although its `time_local` is outside [start 00:00:00, end 23:59:59]. -/
theorem filter_window_counterexample :
    timeWindowFilter [evDstEdge] 67 67 = [evDstEdge] ∧
      ¬ inClaimWindow 67 67 evDstEdge := by
  constructor
  · decide
  · unfold inClaimWindow
    decide

/-- C10 (amended): with start_date > end_date the filter returns the empty
set, except possibly when start_date = end_date + 1 and the 24 h − 1 s arm
still reaches past local midnight of start_date (the spring-forward gap, when
start_date's predecessor midnight is only 23 h earlier); in that case events
in the residual overlap hour can still be selected. -/
theorem reversed_range_filter :
    ∀ (evs : List Event) (s e : Int), e < s →
      timeWindowFilter evs s e = [] ∨
        (s = e + 1 ∧ localMidnightUtcMs s ≤ localMidnightUtcMs e + msPerDay - 1000) := by
  intro evs s e h
  by_cases hcase : localMidnightUtcMs s ≤ localMidnightUtcMs e + msPerDay - 1000
  · right
    refine ⟨?_, hcase⟩
    simp only [localMidnightUtcMs, msPerDay, epoch2025Ms, pdtOffsetMs, pstOffsetMs] at hcase
    split_ifs at hcase <;> omega
  · left
    rw [timeWindowFilter, List.filter_eq_nil_iff]
    intro ev _
    simp only [Bool.and_eq_true, decide_eq_true_eq, not_and]
    intro hl hr
    exact hcase (le_trans hl hr)

/-- Witness for C10: a window with start 2025-03-10 > end 2025-01-06 (more
than one day apart) filters every snapshot to the empty list. -/
theorem reversed_range_filter_witness :
    (5 : Int) < 68 ∧
      (timeWindowFilter [evGap] 68 5 = [] ∨
        ((68 : Int) = 5 + 1 ∧
          localMidnightUtcMs 68 ≤ localMidnightUtcMs 5 + msPerDay - 1000)) :=
  ⟨by decide, reversed_range_filter [evGap] 68 5 (by decide)⟩

/-- Counterexample to C10 as stated: start 2025-03-10 > end 2025-03-09, yet
the filter is not empty — the event at 2025-03-10 00:00:00 PDT lies in the
non-empty residual window left by the spring-forward gap. -/
theorem reversed_range_filter_counterexample :
    (67 : Int) < 68 ∧ timeWindowFilter [evGap] 68 67 = [evGap] := by
  constructor
  · decide
  · decide
